import Mathlib

/-!
# Bank account (`src/main.go`)

A shallow embedding of the Go program: the mutex-guarded `bankClient`, the two
kinds of background goroutines that drive it, and the interactive command loop.

Conventions of the embedding.

* Go `int` is the 64-bit two's-complement integer of the usual targets.  A value
  is a mathematical integer in `[minInt, maxInt]`; `+=` and `-=` are followed by
  `wrap`, the reduction modulo `2 ^ 64` into that interval.
* Every method of `bankClient` takes the mutex on entry and releases it on
  return, so the calls of all goroutines are totally ordered; a method is a
  function from the client before the call to the client after it, and a
  concurrent execution is the list of calls in the order the mutex was taken.
* What a method prints and the error it returns are part of its result.
-/

namespace Bank

/-! ## Go `int` -/

/-- Largest value of a Go `int` (64 bit). -/
def maxInt : Int := 2 ^ 63 - 1

/-- Smallest value of a Go `int` (64 bit). -/
def minInt : Int := -(2 ^ 63)

/-- Membership of a mathematical integer in the range of Go `int`. -/
def isInt (x : Int) : Prop := minInt ≤ x ∧ x ≤ maxInt

instance (x : Int) : Decidable (isInt x) := by
  unfold isInt
  exact inferInstance

/-- Two's-complement wrap-around: the Go `int` that the machine stores for the
mathematical result `x` of an addition or subtraction. -/
def wrap (x : Int) : Int := (x + 2 ^ 63) % 2 ^ 64 - 2 ^ 63

/-! ## `fmt` with the `%d` verb -/

/-- Expansion of a format string whose only verb is `%d`: the k-th `%d` is
replaced by the decimal rendering of the k-th argument, every other character
is copied.  (All format strings of `main.go` have as many `%d` as arguments.) -/
def expand : List Char → List Int → List Char
  | '%' :: 'd' :: rest, a :: args => (toString a).data ++ expand rest args
  | c :: rest, args => c :: expand rest args
  | [], _ => []

/-- Go `fmt.Sprintf` restricted to the `%d` verb. -/
def Sprintf (format : String) (args : List Int) : String :=
  String.mk (expand format.data args)

/-- Go `fmt.Errorf`: an error value is represented by its message. -/
def Errorf (format : String) (args : List Int) : String :=
  Sprintf format args

/-! ## The account -/

/-- The struct `bankClient`; the mutex is represented by the atomicity of the
methods below. -/
structure bankClient where
  balance : Int
deriving DecidableEq, Repr

/-- Result of a method call: the client after the call, the text written to
standard output, and the returned error (`none` is Go `nil`). -/
structure Outcome where
  client : bankClient
  stdout : String
  err : Option String
deriving DecidableEq, Repr

/-- Constructor `NewBankClient`. -/
def NewBankClient : bankClient := ⟨0⟩

/-- Method `Deposit`: `bc.balance += amount`, then the report line.  The Go
method has no result; `err` is always `none`. -/
def bankClient.Deposit (bc : bankClient) (amount : Int) : Outcome :=
  let balance := wrap (bc.balance + amount)
  ⟨⟨balance⟩, Sprintf "Зачислено %d. Текущий баланс: %d\n" [amount, balance], none⟩

/-- Method `Withdrawal`: rejected with an error when `bc.balance < amount`,
otherwise `bc.balance -= amount` and the report line. -/
def bankClient.Withdrawal (bc : bankClient) (amount : Int) : Outcome :=
  if bc.balance < amount then
    ⟨bc, "",
      some (Errorf "недостаточно средств. Текущий баланс: %d, запрашиваемая сумма: %d"
        [bc.balance, amount])⟩
  else
    let balance := wrap (bc.balance - amount)
    ⟨⟨balance⟩, Sprintf "Снято %d. Текущий баланс: %d\n" [amount, balance], none⟩

/-- Method `Balance`. -/
def bankClient.Balance (bc : bankClient) : Int := bc.balance

/-! ## Serialized executions -/

/-- A mutating call on the shared client. -/
inductive Call where
  | Deposit (amount : Int)
  | Withdrawal (amount : Int)
deriving DecidableEq, Repr

/-- Amount passed to a call. -/
def Call.amount : Call → Int
  | Call.Deposit a => a
  | Call.Withdrawal a => a

/-- Performs one call. -/
def perform (bc : bankClient) : Call → Outcome
  | Call.Deposit a => bc.Deposit a
  | Call.Withdrawal a => bc.Withdrawal a

/-- Performs the calls in the order in which they took the mutex. -/
def run (bc : bankClient) : List Call → bankClient
  | [] => bc
  | c :: cs => run (perform bc c).client cs

/-- Sum of the amounts of all `Deposit` calls. -/
def deposited : List Call → Int
  | [] => 0
  | Call.Deposit a :: cs => a + deposited cs
  | Call.Withdrawal _ :: cs => deposited cs

/-- Sum of the amounts of the `Withdrawal` calls that return no error when the
calls are performed in order starting from `bc`. -/
def withdrawn (bc : bankClient) : List Call → Int
  | [] => 0
  | Call.Deposit a :: cs => withdrawn (bc.Deposit a).client cs
  | Call.Withdrawal a :: cs =>
    (if (bc.Withdrawal a).err = none then a else 0) + withdrawn (bc.Withdrawal a).client cs

/-- No `Deposit` of the execution overflows: each one finds a balance `b` with
`b + amount ≤ maxInt`. -/
def fits (bc : bankClient) : List Call → Bool
  | [] => true
  | Call.Deposit a :: cs => decide (bc.balance + a ≤ maxInt) && fits (bc.Deposit a).client cs
  | Call.Withdrawal a :: cs => fits (bc.Withdrawal a).client cs

/-! ## The background goroutines -/

/-- Go `time.Millisecond`, in nanoseconds. -/
def Millisecond : Nat := 1000000

/-- Milliseconds slept after an operation: `rand.Intn(500)+500`, where `r` is
the value returned by `rand.Intn(500)`. -/
def waitMs (r : Fin 500) : Nat := r.val + 500

/-- Argument of `time.Sleep`: `time.Duration(rand.Intn(500)+500) * time.Millisecond`. -/
def sleepDuration (r : Fin 500) : Nat := waitMs r * Millisecond

/-- The two kinds of goroutine started by `main`. -/
inductive Role where
  | credit
  | debit
deriving DecidableEq, Repr

/-- Argument of `rand.Intn` for the amount: `rand.Intn(10)` in a crediting
goroutine, `rand.Intn(5)` in a debiting one. -/
def Role.bound : Role → Nat
  | Role.credit => 10
  | Role.debit => 5

/-- The call made in one iteration: `Deposit(rand.Intn(10) + 1)` or
`Withdrawal(rand.Intn(5) + 1)`, where `r` is the value returned by `rand.Intn`. -/
def Role.call (role : Role) (r : Fin role.bound) : Call :=
  match role with
  | Role.credit => Call.Deposit ((r.val : Int) + 1)
  | Role.debit => Call.Withdrawal ((r.val : Int) + 1)

/-- The two random numbers consumed by one iteration of the loop. -/
structure Draw (role : Role) where
  amount : Fin role.bound
  wait : Fin 500

/-- What a goroutine has done so far. -/
inductive Effect where
  | call (c : Call)
  | sleep (ms : Nat)
deriving DecidableEq, Repr

/-- Control point of a goroutine: at the `select` at the head of the loop,
inside `time.Sleep` with `remaining` milliseconds to go, or returned. -/
inductive Phase where
  | atSelect
  | sleeping (remaining : Nat)
  | returned
deriving DecidableEq, Repr

/-- A goroutine: its control point and the calls and sleeps it has started. -/
structure Goroutine where
  phase : Phase
  trace : List Effect
deriving DecidableEq, Repr

/-- The stop channel (closed or not) and one goroutine observing it. -/
structure World where
  stopClosed : Bool
  actor : Goroutine
deriving DecidableEq, Repr

/-- What can happen to a goroutine and its channel: the timer callback closes
`stopChan`; `ms` milliseconds pass; the goroutine, if it is at the `select`,
runs one iteration with the given random numbers. -/
inductive Event (role : Role) where
  | closeStop
  | elapse (ms : Nat)
  | resume (draw : Draw role)

/-- One iteration from the `select`: `case <-stopChan: return` when the channel
is closed (a ready case is taken before `default`), otherwise the `default`
branch: the call on the client, then `time.Sleep`. -/
def iterate (role : Role) (stopClosed : Bool) (draw : Draw role) (g : Goroutine) : Goroutine :=
  if stopClosed then
    ⟨Phase.returned, g.trace⟩
  else
    ⟨Phase.sleeping (waitMs draw.wait),
      g.trace ++ [Effect.call (role.call draw.amount), Effect.sleep (waitMs draw.wait)]⟩

/-- Effect of one event.  `time.Sleep` does not look at `stopChan`: closing the
channel changes the channel only, and a sleeping goroutine leaves the sleep
only when its duration has passed. -/
def World.step {role : Role} (w : World) : Event role → World
  | Event.closeStop => ⟨true, w.actor⟩
  | Event.elapse ms =>
    match w.actor.phase with
    | Phase.sleeping remaining =>
      if ms < remaining then ⟨w.stopClosed, ⟨Phase.sleeping (remaining - ms), w.actor.trace⟩⟩
      else ⟨w.stopClosed, ⟨Phase.atSelect, w.actor.trace⟩⟩
    | _ => w
  | Event.resume draw =>
    match w.actor.phase with
    | Phase.atSelect => ⟨w.stopClosed, iterate role w.stopClosed draw w.actor⟩
    | _ => w

/-- Effect of a sequence of events. -/
def World.steps {role : Role} (w : World) : List (Event role) → World
  | [] => w
  | e :: es => World.steps (w.step e) es

/-- Total time that passes during a sequence of events. -/
def elapsed {role : Role} : List (Event role) → Nat
  | [] => 0
  | Event.elapse ms :: es => ms + elapsed es
  | _ :: es => elapsed es

/-! ## The command loop -/

/-- Go `unicode.IsSpace`. -/
def isSpace (c : Char) : Bool :=
  let n := c.toNat
  n == 0x09 || n == 0x0A || n == 0x0B || n == 0x0C || n == 0x0D || n == 0x20 ||
  n == 0x85 || n == 0xA0 || n == 0x1680 || (0x2000 ≤ n && n ≤ 0x200A) ||
  n == 0x2028 || n == 0x2029 || n == 0x202F || n == 0x205F || n == 0x3000

/-- Go `strings.TrimSpace`. -/
def TrimSpace (s : String) : String :=
  String.mk (((s.data.dropWhile isSpace).reverse.dropWhile isSpace).reverse)

/-- Pieces of a character list between single spaces. -/
def splitSpace : List Char → List (List Char)
  | [] => [[]]
  | c :: cs =>
    if c = ' ' then [] :: splitSpace cs
    else
      match splitSpace cs with
      | p :: ps => (c :: p) :: ps
      | [] => [[c]]

/-- Go `strings.Split(s, " ")`. -/
def Split (s : String) : List String :=
  (splitSpace s.data).map String.mk

/-- Value of a run of decimal digits, `none` when a character is not a digit. -/
def digits : List Char → Nat → Option Nat
  | [], acc => some acc
  | c :: cs, acc =>
    if '0' ≤ c ∧ c ≤ '9' then digits cs (acc * 10 + (c.toNat - '0'.toNat)) else none

/-- Go `strconv.Atoi`: an optional sign and at least one decimal digit, of a
value in the range of `int`; `none` stands for a non-nil error. -/
def Atoi (s : String) : Option Int :=
  let body (neg : Bool) (ds : List Char) : Option Int :=
    if ds = [] then none
    else
      match digits ds 0 with
      | none => none
      | some n =>
        let v : Int := if neg then -(n : Int) else (n : Int)
        if isInt v then some v else none
  match s.data with
  | '-' :: ds => body true ds
  | '+' :: ds => body false ds
  | ds => body false ds

/-- Result of one line of input: the client afterwards, the text printed, the
calls made on the client, and whether `main` returned. -/
structure Reply where
  client : bankClient
  stdout : String
  calls : List Call
  exited : Bool
deriving DecidableEq, Repr

/-- Message for a `deposit` or `withdrawal` line that does not have exactly two
parts. -/
def usage (command : String) : String :=
  "Неверный формат команды. Использование: " ++ command ++ " <сумма>\n"

/-- Message for an amount that `Atoi` rejects or that is not positive. -/
def badAmount : String := "Неверная сумма. Введите положительное целое число.\n"

/-- The command of a line: the first piece of the trimmed line, in lower case. -/
def command (ToLower : String → String) (text : String) : String :=
  ToLower ((Split (TrimSpace text)).headD "")

/-- Body of the command loop for one line `text` returned by the scanner.
`ToLower` is Go `strings.ToLower`. -/
def handleLine (ToLower : String → String) (client : bankClient) (text : String) : Reply :=
  let input := TrimSpace text
  let parts := Split input
  let command := command ToLower text
  if command = "balance" then
    ⟨client, Sprintf "Текущий баланс: %d\n" [client.Balance], [], false⟩
  else if command = "deposit" then
    if parts.length ≠ 2 then ⟨client, usage "deposit", [], false⟩
    else
      match Atoi (parts.getD 1 "") with
      | none => ⟨client, badAmount, [], false⟩
      | some amount =>
        if amount ≤ 0 then ⟨client, badAmount, [], false⟩
        else
          let r := client.Deposit amount
          ⟨r.client, r.stdout, [Call.Deposit amount], false⟩
  else if command = "withdrawal" then
    if parts.length ≠ 2 then ⟨client, usage "withdrawal", [], false⟩
    else
      match Atoi (parts.getD 1 "") with
      | none => ⟨client, badAmount, [], false⟩
      | some amount =>
        if amount ≤ 0 then ⟨client, badAmount, [], false⟩
        else
          let r := client.Withdrawal amount
          match r.err with
          | some e => ⟨r.client, r.stdout ++ e ++ "\n", [Call.Withdrawal amount], false⟩
          | none => ⟨r.client, r.stdout, [Call.Withdrawal amount], false⟩
  else if command = "exit" then
    ⟨client, "Завершение работы приложения...\n", [], true⟩
  else
    ⟨client,
      "Неподдерживаемая команда. Доступные команды: balance, deposit, withdrawal, exit\n",
      [], false⟩

/-- Lower-casing of the ASCII letters, the part of Go `strings.ToLower` that
the concrete lines below need. -/
def asciiLower (s : String) : String := String.mk (s.data.map Char.toLower)

/-- State at the `go` statement: the channel is open, the goroutine is at the
head of its loop and has done nothing. -/
def World.initial : World := ⟨false, ⟨Phase.atSelect, []⟩⟩

/-! ## Arithmetic of `wrap` -/

theorem wrap_of_isInt (x : Int) (h : isInt x) : wrap x = x := by
  unfold isInt minInt maxInt at h
  unfold wrap
  omega

theorem isInt_wrap (x : Int) : isInt (wrap x) := by
  unfold isInt minInt maxInt wrap
  omega

theorem wrap_add_wrap (x a : Int) : wrap (wrap x + a) = wrap (x + a) := by
  unfold wrap
  omega

theorem wrap_of_range (x : Int) (h0 : 0 ≤ x) (h1 : x ≤ maxInt) : wrap x = x := by
  unfold maxInt at h1
  unfold wrap
  omega

/-! ## Single calls -/

theorem Deposit_balance (bc : bankClient) (a : Int) :
    (bc.Deposit a).client.balance = wrap (bc.balance + a) := rfl

theorem Withdrawal_rejected (bc : bankClient) (a : Int) (h : bc.balance < a) :
    bc.Withdrawal a = ⟨bc, "",
      some (Errorf "недостаточно средств. Текущий баланс: %d, запрашиваемая сумма: %d"
        [bc.balance, a])⟩ := by
  unfold bankClient.Withdrawal
  rw [if_pos h]

theorem Withdrawal_accepted (bc : bankClient) (a : Int) (h : ¬ bc.balance < a) :
    (bc.Withdrawal a).client.balance = wrap (bc.balance - a) ∧ (bc.Withdrawal a).err = none := by
  unfold bankClient.Withdrawal
  rw [if_neg h]
  exact ⟨rfl, rfl⟩

/-- C1: `Withdrawal(a)` on a balance `b` returns an error exactly when `b < a`;
equivalently it returns `nil` exactly when `a ≤ b`. -/
theorem Withdrawal_error_iff (bc : bankClient) (a : Int) :
    ((bc.Withdrawal a).err ≠ none ↔ bc.Balance < a) ∧
    ((bc.Withdrawal a).err = none ↔ a ≤ bc.Balance) := by
  unfold bankClient.Balance
  by_cases h : bc.balance < a
  · rw [Withdrawal_rejected bc a h]
    simp [h]
  · have hle : a ≤ bc.balance := not_lt.mp h
    simp [(Withdrawal_accepted bc a h).2, h, hle]

/-- C2: a `Withdrawal(a)` on a balance `b < a` is rejected and leaves the client
as it was, so `Balance()` after the call equals `Balance()` before it. -/
theorem Withdrawal_rejected_keeps_balance (bc : bankClient) (a : Int) (h : bc.Balance < a) :
    (bc.Withdrawal a).err ≠ none ∧ (bc.Withdrawal a).client = bc ∧
    (bc.Withdrawal a).client.Balance = bc.Balance := by
  rw [Withdrawal_rejected bc a h]
  simp

theorem Withdrawal_rejected_keeps_balance_witness :
    (bankClient.Withdrawal ⟨12⟩ 20).err ≠ none ∧ (bankClient.Withdrawal ⟨12⟩ 20).client = ⟨12⟩ ∧
    (bankClient.Withdrawal ⟨12⟩ 20).client.Balance = bankClient.Balance ⟨12⟩ :=
  Withdrawal_rejected_keeps_balance ⟨12⟩ 20 (by decide)

/-- C5 as stated fails: `Deposit(1)` on the balance 9223372036854775807 (the
largest `int`) leaves -9223372036854775808, not 9223372036854775808. -/
theorem Deposit_overflow :
    isInt 9223372036854775807 ∧ isInt 1 ∧ (0 : Int) < 1 ∧
    (bankClient.Deposit ⟨9223372036854775807⟩ 1).client.Balance = -9223372036854775808 ∧
    (bankClient.Deposit ⟨9223372036854775807⟩ 1).client.Balance ≠ 9223372036854775807 + 1 := by
  decide

/-- C5, amended: `Deposit(a)` returns no error and leaves the balance equal to
`b + a` reduced to the range of `int` by wrap-around; for a balance `b` in range
and a positive `a` with `b + a ≤ maxInt` this is exactly `b + a`. -/
theorem Deposit_adds (bc : bankClient) (a : Int) :
    (bc.Deposit a).err = none ∧
    (bc.Deposit a).client.Balance = wrap (bc.Balance + a) ∧
    (isInt bc.Balance → 0 < a → bc.Balance + a ≤ maxInt →
      (bc.Deposit a).client.Balance = bc.Balance + a) := by
  refine ⟨rfl, rfl, ?_⟩
  intro hb ha hfit
  unfold bankClient.Balance at *
  rw [Deposit_balance]
  apply wrap_of_isInt
  unfold isInt at *
  constructor <;> omega

theorem Deposit_adds_witness :
    (bankClient.Deposit ⟨12⟩ 5).client.Balance = bankClient.Balance ⟨12⟩ + 5 :=
  (Deposit_adds ⟨12⟩ 5).2.2 (by decide) (by decide) (by decide)

/-- C6: on a balance `b` (a Go `int`) and for a positive `a ≤ b`,
`Withdrawal(a)` returns no error and leaves the balance `b - a`. -/
theorem Withdrawal_subtracts (bc : bankClient) (a : Int)
    (hb : isInt bc.Balance) (ha : 0 < a) (hle : a ≤ bc.Balance) :
    (bc.Withdrawal a).err = none ∧ (bc.Withdrawal a).client.Balance = bc.Balance - a := by
  unfold bankClient.Balance at *
  have h : ¬ bc.balance < a := not_lt.mpr hle
  refine ⟨(Withdrawal_accepted bc a h).2, ?_⟩
  rw [(Withdrawal_accepted bc a h).1]
  apply wrap_of_range
  · omega
  · have := hb.2
    omega

theorem Withdrawal_subtracts_witness :
    (bankClient.Withdrawal ⟨15⟩ 3).err = none ∧
    (bankClient.Withdrawal ⟨15⟩ 3).client.Balance = bankClient.Balance ⟨15⟩ - 3 :=
  Withdrawal_subtracts ⟨15⟩ 3 (by decide) (by decide) (by decide)

/-- C7: the error of a rejected `Withdrawal(a)` on a balance `b < a` is the
message with `b` in the place of the current balance and `a` in the place of the
requested amount; and from a new client `Deposit(10)`, `Deposit(5)`,
`Withdrawal(3)` give balance 12, after which `Withdrawal(20)` fails with the
message for (12, 20) and the balance is still 12. -/
theorem Withdrawal_error_message :
    (∀ (bc : bankClient) (a : Int), bc.Balance < a →
      (bc.Withdrawal a).err =
        some ("недостаточно средств. Текущий баланс: " ++ toString bc.Balance ++
          ", запрашиваемая сумма: " ++ toString a)) ∧
    (run NewBankClient [Call.Deposit 10, Call.Deposit 5, Call.Withdrawal 3]).Balance = 12 ∧
    ((run NewBankClient [Call.Deposit 10, Call.Deposit 5, Call.Withdrawal 3]).Withdrawal 20).err =
      some "недостаточно средств. Текущий баланс: 12, запрашиваемая сумма: 20" ∧
    ((run NewBankClient
      [Call.Deposit 10, Call.Deposit 5, Call.Withdrawal 3]).Withdrawal 20).client.Balance = 12 := by
  refine ⟨?_, by decide, by decide, by decide⟩
  intro bc a h
  rw [Withdrawal_rejected bc a h]
  simp only [Option.some.injEq]
  apply String.ext
  simp [Errorf, Sprintf, expand, bankClient.Balance]

theorem Withdrawal_error_message_witness :
    (bankClient.Withdrawal ⟨12⟩ 20).err =
      some ("недостаточно средств. Текущий баланс: " ++ toString (bankClient.Balance ⟨12⟩) ++
        ", запрашиваемая сумма: " ++ toString (20 : Int)) :=
  Withdrawal_error_message.1 ⟨12⟩ 20 (by decide)

/-! ## Serialized executions -/

theorem run_balance_wrap (calls : List Call) :
    ∀ bc : bankClient, isInt bc.balance →
      (run bc calls).balance = wrap (bc.balance + deposited calls - withdrawn bc calls) := by
  induction calls with
  | nil =>
    intro bc hb
    simp [run, deposited, withdrawn, wrap_of_isInt _ hb]
  | cons c cs ih =>
    intro bc hb
    cases c with
    | Deposit a =>
      have hstep : isInt (bc.Deposit a).client.balance := by
        rw [Deposit_balance]
        exact isInt_wrap _
      simp only [run, perform, deposited, withdrawn]
      rw [ih _ hstep, Deposit_balance]
      have e : wrap (bc.balance + a) + deposited cs - withdrawn (bc.Deposit a).client cs =
          wrap (bc.balance + a) + (deposited cs - withdrawn (bc.Deposit a).client cs) := by ring
      rw [e, wrap_add_wrap]
      congr 1
      ring
    | Withdrawal a =>
      simp only [run, perform, deposited, withdrawn]
      by_cases h : bc.balance < a
      · rw [Withdrawal_rejected bc a h]
        simp only [reduceCtorEq, if_false, zero_add]
        exact ih bc hb
      · have hacc := Withdrawal_accepted bc a h
        have hstep : isInt (bc.Withdrawal a).client.balance := by
          rw [hacc.1]
          exact isInt_wrap _
        rw [ih _ hstep, hacc.1, if_pos hacc.2]
        have e : wrap (bc.balance - a) + deposited cs - withdrawn (bc.Withdrawal a).client cs =
            wrap (bc.balance - a) + (deposited cs - withdrawn (bc.Withdrawal a).client cs) := by
          ring
        rw [e, wrap_add_wrap]
        congr 1
        ring

theorem run_exact (calls : List Call) :
    ∀ bc : bankClient, 0 ≤ bc.balance → bc.balance ≤ maxInt →
      (∀ c ∈ calls, 0 < c.amount) → fits bc calls = true →
      0 ≤ (run bc calls).balance ∧ (run bc calls).balance ≤ maxInt ∧
      (run bc calls).balance = bc.balance + deposited calls - withdrawn bc calls := by
  induction calls with
  | nil =>
    intro bc h0 h1 _ _
    simp [run, deposited, withdrawn, h0, h1]
  | cons c cs ih =>
    intro bc h0 h1 hpos hfit
    have hc : 0 < c.amount := hpos c (List.mem_cons_self _ _)
    have hcs : ∀ d ∈ cs, 0 < d.amount := fun d hd => hpos d (List.mem_cons_of_mem _ hd)
    cases c with
    | Deposit a =>
      simp only [Call.amount] at hc
      simp only [fits, Bool.and_eq_true, decide_eq_true_eq] at hfit
      have hb : (bc.Deposit a).client.balance = bc.balance + a := by
        rw [Deposit_balance]
        exact wrap_of_range _ (by omega) hfit.1
      have := ih (bc.Deposit a).client (by rw [hb]; omega) (by rw [hb]; exact hfit.1) hcs hfit.2
      simp only [run, perform, deposited, withdrawn]
      refine ⟨this.1, this.2.1, ?_⟩
      rw [this.2.2, hb]
      ring
    | Withdrawal a =>
      simp only [Call.amount] at hc
      simp only [fits] at hfit
      simp only [run, perform, deposited, withdrawn]
      by_cases h : bc.balance < a
      · rw [Withdrawal_rejected bc a h] at hfit ⊢
        simp only [reduceCtorEq, if_false, zero_add]
        exact ih bc h0 h1 hcs hfit
      · have hacc := Withdrawal_accepted bc a h
        have hb : (bc.Withdrawal a).client.balance = bc.balance - a := by
          rw [hacc.1]
          exact wrap_of_range _ (by omega) (by omega)
        have := ih (bc.Withdrawal a).client (by rw [hb]; omega) (by rw [hb]; omega) hcs hfit
        refine ⟨this.1, this.2.1, ?_⟩
        rw [this.2.2, hb, if_pos hacc.2]
        ring

/-- C3 as stated fails: from a new client, `Deposit(9223372036854775807)` and
`Deposit(1)`, both with positive `int` amounts, leave a negative balance. -/
theorem balance_negative_after_overflow :
    (∀ c ∈ [Call.Deposit 9223372036854775807, Call.Deposit 1], 0 < c.amount ∧ isInt c.amount) ∧
    (run NewBankClient [Call.Deposit 9223372036854775807, Call.Deposit 1]).Balance
      = -9223372036854775808 ∧
    ¬ 0 ≤ (run NewBankClient [Call.Deposit 9223372036854775807, Call.Deposit 1]).Balance := by
  decide

/-- C3, amended: from a new client, after every finite sequence of `Deposit`
and `Withdrawal` calls with positive amounts in which no `Deposit` overflows
(each finds a balance `b` with `b + amount ≤ maxInt`), `Balance()` is `≥ 0`. -/
theorem balance_nonneg (calls : List Call)
    (hpos : ∀ c ∈ calls, 0 < c.amount) (hfit : fits NewBankClient calls = true) :
    0 ≤ (run NewBankClient calls).Balance :=
  (run_exact calls NewBankClient (le_refl 0) (by decide) hpos hfit).1

theorem balance_nonneg_witness :
    0 ≤ (run NewBankClient [Call.Deposit 10, Call.Withdrawal 20, Call.Withdrawal 3]).Balance :=
  balance_nonneg [Call.Deposit 10, Call.Withdrawal 20, Call.Withdrawal 3] (by decide) (by decide)

/-- C4 as stated fails: from a new client, after `Deposit(9223372036854775807)`
and `Deposit(1)` the balance is -9223372036854775808, while the deposits sum to
9223372036854775808 and nothing was withdrawn. -/
theorem balance_differs_from_sum_after_overflow :
    (∀ c ∈ [Call.Deposit 9223372036854775807, Call.Deposit 1], 0 < c.amount ∧ isInt c.amount) ∧
    (run NewBankClient [Call.Deposit 9223372036854775807, Call.Deposit 1]).Balance ≠
      deposited [Call.Deposit 9223372036854775807, Call.Deposit 1] -
        withdrawn NewBankClient [Call.Deposit 9223372036854775807, Call.Deposit 1] := by
  decide

/-- C4, amended: from a new client, after every sequence of calls the balance
equals the sum of all deposited amounts minus the sum of the amounts of the
withdrawals that returned no error, reduced to the range of `int` by
wrap-around; when the amounts are positive and no `Deposit` overflows it equals
that difference exactly. -/
theorem balance_eq_deposits_minus_withdrawals (calls : List Call) :
    (run NewBankClient calls).Balance =
      wrap (deposited calls - withdrawn NewBankClient calls) ∧
    ((∀ c ∈ calls, 0 < c.amount) → fits NewBankClient calls = true →
      (run NewBankClient calls).Balance = deposited calls - withdrawn NewBankClient calls) := by
  constructor
  · have := run_balance_wrap calls NewBankClient (by decide)
    simpa [bankClient.Balance, NewBankClient] using this
  · intro hpos hfit
    have := (run_exact calls NewBankClient (le_refl 0) (by decide) hpos hfit).2.2
    simpa [bankClient.Balance, NewBankClient] using this

theorem balance_eq_deposits_minus_withdrawals_witness :
    (run NewBankClient [Call.Deposit 10, Call.Withdrawal 20, Call.Withdrawal 3]).Balance =
      deposited [Call.Deposit 10, Call.Withdrawal 20, Call.Withdrawal 3] -
        withdrawn NewBankClient [Call.Deposit 10, Call.Withdrawal 20, Call.Withdrawal 3] :=
  (balance_eq_deposits_minus_withdrawals
    [Call.Deposit 10, Call.Withdrawal 20, Call.Withdrawal 3]).2 (by decide) (by decide)

/-! ## The command loop -/

theorem handleLine_calls_positive (ToLower : String → String) (client : bankClient)
    (text : String) : ∀ c ∈ (handleLine ToLower client text).calls, 0 < c.amount := by
  intro c hc
  unfold handleLine at hc
  simp only at hc
  split_ifs at hc with h1 h2 h3 h4 h5 h6
  all_goals first
    | exact absurd hc (List.not_mem_nil c)
    | skip
  · split at hc
    · exact absurd hc (List.not_mem_nil c)
    · rename_i amount _
      split_ifs at hc with h7
      · exact absurd hc (List.not_mem_nil c)
      · rw [List.mem_singleton] at hc
        subst hc
        exact not_le.mp h7
  · split at hc
    · exact absurd hc (List.not_mem_nil c)
    · rename_i amount _
      split_ifs at hc with h7
      · exact absurd hc (List.not_mem_nil c)
      · have hm : c ∈ [Call.Withdrawal amount] := by
          split at hc <;> exact hc
        rw [List.mem_singleton] at hm
        subst hm
        exact not_le.mp h7

theorem handleLine_rejected (ToLower : String → String) (client : bankClient) (text : String)
    (hcmd : command ToLower text = "deposit" ∨ command ToLower text = "withdrawal")
    (hbad : (Split (TrimSpace text)).length ≠ 2 ∨
      Atoi ((Split (TrimSpace text)).getD 1 "") = none ∨
      ∃ n, Atoi ((Split (TrimSpace text)).getD 1 "") = some n ∧ n ≤ 0) :
    handleLine ToLower client text = ⟨client, usage (command ToLower text), [], false⟩ ∨
    handleLine ToLower client text = ⟨client, badAmount, [], false⟩ := by
  have hne : ("withdrawal" : String) ≠ "balance" := by decide
  have hne2 : ("withdrawal" : String) ≠ "deposit" := by decide
  have hne3 : ("deposit" : String) ≠ "balance" := by decide
  unfold handleLine
  simp only
  rcases hcmd with hc | hc
  · rw [hc, if_neg hne3, if_pos rfl]
    rcases hbad with hlen | hnone | ⟨n, hn, hle⟩
    · rw [if_pos hlen]
      exact Or.inl rfl
    · by_cases hlen : (Split (TrimSpace text)).length ≠ 2
      · rw [if_pos hlen]
        exact Or.inl rfl
      · rw [if_neg hlen, hnone]
        exact Or.inr rfl
    · by_cases hlen : (Split (TrimSpace text)).length ≠ 2
      · rw [if_pos hlen]
        exact Or.inl rfl
      · rw [if_neg hlen, hn]
        simp [hle]
  · rw [hc, if_neg hne, if_neg hne2, if_pos rfl]
    rcases hbad with hlen | hnone | ⟨n, hn, hle⟩
    · rw [if_pos hlen]
      exact Or.inl rfl
    · by_cases hlen : (Split (TrimSpace text)).length ≠ 2
      · rw [if_pos hlen]
        exact Or.inl rfl
      · rw [if_neg hlen, hnone]
        exact Or.inr rfl
    · by_cases hlen : (Split (TrimSpace text)).length ≠ 2
      · rw [if_pos hlen]
        exact Or.inl rfl
      · rw [if_neg hlen, hn]
        simp [hle]

/-- C8: a line whose command is `deposit` or `withdrawal` and that does not
consist of exactly the command and one argument (so also when the argument is
missing), or whose argument `Atoi` rejects, or whose argument is an integer
`≤ 0`, is answered with the usage message or the bad-amount message, makes no
call on the client and leaves it unchanged; and whatever the line, every
`Deposit` or `Withdrawal` the loop calls has an amount `> 0`. -/
theorem controller_validates_amount (ToLower : String → String) (client : bankClient)
    (text : String) :
    ((command ToLower text = "deposit" ∨ command ToLower text = "withdrawal") →
      ((Split (TrimSpace text)).length ≠ 2 ∨
        Atoi ((Split (TrimSpace text)).getD 1 "") = none ∨
        ∃ n, Atoi ((Split (TrimSpace text)).getD 1 "") = some n ∧ n ≤ 0) →
      ((handleLine ToLower client text).stdout = usage (command ToLower text) ∨
        (handleLine ToLower client text).stdout = badAmount) ∧
      (handleLine ToLower client text).calls = [] ∧
      (handleLine ToLower client text).client = client ∧
      (handleLine ToLower client text).client.Balance = client.Balance ∧
      (handleLine ToLower client text).exited = false) ∧
    (∀ c ∈ (handleLine ToLower client text).calls, 0 < c.amount) := by
  refine ⟨?_, handleLine_calls_positive ToLower client text⟩
  intro hcmd hbad
  rcases handleLine_rejected ToLower client text hcmd hbad with h | h
  · rw [h]
    exact ⟨Or.inl rfl, rfl, rfl, rfl, rfl⟩
  · rw [h]
    exact ⟨Or.inr rfl, rfl, rfl, rfl, rfl⟩

theorem controller_validates_amount_witness :
    ((handleLine asciiLower ⟨7⟩ "deposit").stdout = usage "deposit" ∧
      (handleLine asciiLower ⟨7⟩ "deposit").client.Balance = 7) ∧
    ((handleLine asciiLower ⟨7⟩ "Deposit abc").stdout = badAmount ∧
      (handleLine asciiLower ⟨7⟩ "Deposit abc").client.Balance = 7) ∧
    ((handleLine asciiLower ⟨7⟩ " withdrawal -5").stdout = badAmount ∧
      (handleLine asciiLower ⟨7⟩ " withdrawal -5").client.Balance = 7) ∧
    ((handleLine asciiLower ⟨7⟩ "deposit 0").stdout = badAmount ∧
      (handleLine asciiLower ⟨7⟩ "deposit 0").client.Balance = 7) ∧
    (∀ c ∈ (handleLine asciiLower ⟨7⟩ "deposit 5").calls, 0 < c.amount) := by
  have h1 := (controller_validates_amount asciiLower ⟨7⟩ "deposit").1
    (by decide) (Or.inl (by decide))
  have h2 := (controller_validates_amount asciiLower ⟨7⟩ "Deposit abc").1
    (by decide) (Or.inr (Or.inl (by decide)))
  have h3 := (controller_validates_amount asciiLower ⟨7⟩ " withdrawal -5").1
    (by decide) (Or.inr (Or.inr ⟨-5, by decide, by decide⟩))
  have h4 := (controller_validates_amount asciiLower ⟨7⟩ "deposit 0").1
    (by decide) (Or.inr (Or.inr ⟨0, by decide, by decide⟩))
  refine ⟨⟨?_, h1.2.2.2.1⟩, ⟨?_, h2.2.2.2.1⟩, ⟨?_, h3.2.2.2.1⟩, ⟨?_, h4.2.2.2.1⟩,
    (controller_validates_amount asciiLower ⟨7⟩ "deposit 5").2⟩
  all_goals decide

/-! ## The wait between iterations -/

/-- C9 as stated fails: no value that `rand.Intn(500)` can return gives a wait
of 1000 ms, neither as a number of milliseconds nor as the `time.Duration`
passed to `time.Sleep`; the largest return value, 499, gives 999 ms. -/
theorem wait_never_1000 :
    (¬ ∃ r : Fin 500, waitMs r = 1000) ∧
    (¬ ∃ r : Fin 500, sleepDuration r = 1000 * Millisecond) ∧
    waitMs ⟨499, by decide⟩ = 999 := by
  refine ⟨?_, ?_, rfl⟩
  · rintro ⟨r, hr⟩
    have := r.isLt
    unfold waitMs at hr
    omega
  · rintro ⟨r, hr⟩
    have := r.isLt
    unfold sleepDuration waitMs Millisecond at hr
    omega

/-- C9, amended: the wait of every goroutine ranges over 500–999 ms inclusive:
the waits that `rand.Intn(500)+500` can produce are exactly the whole
milliseconds from 500 to 999, both endpoints included, and the `time.Duration`
passed to `time.Sleep` is that number of milliseconds. -/
theorem wait_drawable_iff :
    (∀ ms : Nat, (∃ r : Fin 500, waitMs r = ms) ↔ (500 ≤ ms ∧ ms ≤ 999)) ∧
    (∀ r : Fin 500, sleepDuration r = waitMs r * Millisecond ∧
      500 * Millisecond ≤ sleepDuration r ∧ sleepDuration r ≤ 999 * Millisecond) ∧
    waitMs ⟨0, by decide⟩ = 500 ∧ waitMs ⟨499, by decide⟩ = 999 := by
  refine ⟨?_, ?_, rfl, rfl⟩
  · intro ms
    constructor
    · rintro ⟨r, hr⟩
      have := r.isLt
      unfold waitMs at hr
      omega
    · rintro ⟨h1, h2⟩
      exact ⟨⟨ms - 500, by omega⟩, by unfold waitMs; simp; omega⟩
  · intro r
    have := r.isLt
    unfold sleepDuration waitMs Millisecond
    omega

/-! ## Stopping a goroutine -/

theorem steps_closed_trace {role : Role} (events : List (Event role)) :
    ∀ w : World, w.stopClosed = true →
      (w.steps events).actor.trace = w.actor.trace ∧ (w.steps events).stopClosed = true := by
  induction events with
  | nil =>
    intro w hw
    exact ⟨rfl, hw⟩
  | cons e es ih =>
    intro w hw
    have hstep : (w.step e).stopClosed = true ∧ (w.step e).actor.trace = w.actor.trace := by
      cases e with
      | closeStop => exact ⟨rfl, rfl⟩
      | elapse ms =>
        simp only [World.step]
        split
        · split_ifs
          · exact ⟨hw, rfl⟩
          · exact ⟨hw, rfl⟩
        · exact ⟨hw, rfl⟩
      | resume draw =>
        simp only [World.step]
        split
        · simp [iterate, hw]
        · exact ⟨hw, rfl⟩
    have := ih (w.step e) hstep.1
    simp only [World.steps]
    exact ⟨this.1.trans hstep.2, this.2⟩

theorem steps_sleeping {role : Role} (events : List (Event role)) :
    ∀ (closed : Bool) (n : Nat) (tr : List Effect), elapsed events < n →
      ∃ closed2, World.steps ⟨closed, ⟨Phase.sleeping n, tr⟩⟩ events =
        ⟨closed2, ⟨Phase.sleeping (n - elapsed events), tr⟩⟩ := by
  induction events with
  | nil =>
    intro closed n tr _
    exact ⟨closed, by simp [World.steps, elapsed]⟩
  | cons e es ih =>
    intro closed n tr h
    cases e with
    | closeStop =>
      simp only [elapsed] at h ⊢
      exact ih true n tr h
    | elapse ms =>
      simp only [elapsed] at h ⊢
      have hms : ms < n := by omega
      obtain ⟨c2, hc2⟩ := ih closed (n - ms) tr (by omega)
      refine ⟨c2, ?_⟩
      simp only [World.steps, World.step, if_pos hms]
      rw [hc2, Nat.sub_sub]
    | resume draw =>
      simp only [elapsed] at h ⊢
      exact ih closed n tr h

/-- C10 as stated fails: a crediting goroutine that has just entered a sleep of
999 ms is still in that sleep when the stop channel is closed, and is still in
it, with 1 ms to go, 998 ms after the channel was closed. -/
theorem sleep_outlasts_stop :
    (World.steps World.initial
      [Event.resume (⟨⟨0, by decide⟩, ⟨499, by decide⟩⟩ : Draw Role.credit),
        Event.closeStop]).stopClosed = true ∧
    (World.steps World.initial
      [Event.resume (⟨⟨0, by decide⟩, ⟨499, by decide⟩⟩ : Draw Role.credit),
        Event.closeStop]).actor.phase = Phase.sleeping 999 ∧
    (World.steps World.initial
      [Event.resume (⟨⟨0, by decide⟩, ⟨499, by decide⟩⟩ : Draw Role.credit),
        Event.closeStop, Event.elapse 998]).actor.phase = Phase.sleeping 1 := by
  decide

/-- C10, amended: when the stop channel is closed while a goroutine is in a
sleep with `n` ms to go, the sleep is not cut short: as long as less than `n` ms
have passed since, the goroutine is still in it.  Whatever happens after the
channel is closed, the goroutine starts no further call on the client and no
further sleep; once the `n` ms have passed, its next `select` takes
`case <-stopChan` and it returns. -/
theorem stop_during_sleep (role : Role) (n : Nat) (tr : List Effect)
    (events : List (Event role)) :
    (elapsed events < n →
      (World.steps ⟨false, ⟨Phase.sleeping n, tr⟩⟩ (Event.closeStop :: events)).actor.phase =
        Phase.sleeping (n - elapsed events)) ∧
    (World.steps ⟨false, ⟨Phase.sleeping n, tr⟩⟩ (Event.closeStop :: events)).actor.trace = tr ∧
    (∀ (ms : Nat) (draw : Draw role), n ≤ ms →
      (World.steps ⟨false, ⟨Phase.sleeping n, tr⟩⟩
        [Event.closeStop, Event.elapse ms, Event.resume draw]).actor = ⟨Phase.returned, tr⟩) := by
  refine ⟨?_, ?_, ?_⟩
  · intro h
    obtain ⟨c2, hc2⟩ := steps_sleeping events true n tr h
    simp only [World.steps, World.step]
    rw [hc2]
  · simp only [World.steps, World.step]
    exact (steps_closed_trace events ⟨true, ⟨Phase.sleeping n, tr⟩⟩ rfl).1
  · intro ms draw h
    have hms : ¬ ms < n := not_lt.mpr h
    simp [World.steps, World.step, hms, iterate]

theorem stop_during_sleep_witness :
    (World.steps ⟨false, ⟨Phase.sleeping 999, []⟩⟩
      [Event.closeStop, (Event.elapse 998 : Event Role.credit)]).actor.phase =
        Phase.sleeping (999 - elapsed [(Event.elapse 998 : Event Role.credit)]) :=
  (stop_during_sleep Role.credit 999 [] [Event.elapse 998]).1 (by decide)

end Bank
